import Mathlib

/-!
Verification of the QuizCraft AI document-to-question pipeline.

The development is a shallow embedding of the pipeline functions found in
the repository:

* `src/src/components/quiz-creator.tsx` (the main component; referred to
  below as the "main component"): `parseAIResponse`, `handleRegenerate`,
  `gradeQuiz`, `handleGenerateQuestions`;
* the variant component stored at `src/unnamed/part_002`: `parseQuestion`,
  `handleGradeQuiz`, `handleGenerateQuestions` (concurrent planner),
  `handleRegenerateQuestion`;
* the variant component stored at `src/unnamed/part_003`: `gradeQuiz`;
* `src/src/ai/flows/intelligently-chunk-document.ts`:
  `intelligentlyChunkDocumentFlow`.

JavaScript strings are modelled as `List Char`.  JavaScript's
`String.prototype.trim` is modelled over the ASCII whitespace characters
that occur in this pipeline's data; `toLowerCase` is modelled by
`Char.toLower` (ASCII case mapping, which matches JavaScript on the ASCII
inputs the pipeline manipulates).  Question ids, produced in the source by
an impure unique-id generator (`getUniqueQuestionId` / `generateUniqueId`),
are modelled as explicit `Nat` parameters.
-/

namespace QuizCraft

/-- JavaScript strings are modelled as lists of characters. -/
abbrev Str := List Char

/-- Coerce a Lean string literal to the `List Char` model. -/
def strOf (s : String) : Str := s.data

/-- Whitespace test used to model `String.prototype.trim` (the ASCII
whitespace and line-terminator characters). -/
def isWsChar (c : Char) : Bool :=
  c = ' ' || c = '\n' || c = '\t' || c = '\r' || c = '\x0b' || c = '\x0c'

/-- Model of `s.trim()`: remove leading and trailing whitespace. -/
def trimStr (s : Str) : Str :=
  ((s.dropWhile isWsChar).reverse.dropWhile isWsChar).reverse

/-- Model of `s.startsWith(pat)`: `startsWithStr pat s`. -/
def startsWithStr : Str → Str → Bool
  | [], _ => true
  | _ :: _, [] => false
  | p :: ps, c :: cs => p = c && startsWithStr ps cs

/-- Split `s` around the FIRST occurrence of `pat`:
`splitFirst pat s = some (before, after)` when `pat` occurs in `s`
(`after` keeps any later occurrences verbatim), `none` otherwise.
This models `s.split(pat)` destructured as
`[before, ...rest]` with `rest.join(pat)` recovering `after`. -/
def splitFirst (pat : Str) : Str → Option (Str × Str)
  | [] => if startsWithStr pat [] then some ([], []) else none
  | c :: rest =>
    if startsWithStr pat (c :: rest) then
      some ([], (c :: rest).drop pat.length)
    else
      match splitFirst pat rest with
      | some (b, a) => some (c :: b, a)
      | none => none

/-- Split `s` around the LAST occurrence of `pat`; models
`s.lastIndexOf(pat)` followed by the two `substring` calls in the
variant parser `parseQuestion` (part_002). -/
def lastSplit (pat : Str) : Str → Option (Str × Str)
  | [] => if startsWithStr pat [] then some ([], []) else none
  | c :: rest =>
    match lastSplit pat rest with
    | some (b, a) => some (c :: b, a)
    | none =>
      if startsWithStr pat (c :: rest) then
        some ([], (c :: rest).drop pat.length)
      else none

/-- Model of `s.includes(pat)`: `containsStr pat s`. -/
def containsStr (pat s : Str) : Bool := (splitFirst pat s).isSome

/-- The answer marker literal `"Answer:"`. -/
def ansMarker : Str := strOf "Answer:"

/-! ## Data model -/

/-- Question kind discriminator (`"fib" | "mcq" | "tf"` in the main
component, `"fill" | "mcq" | "tf"` in the part_002 variant). -/
inductive QType where
  | fib
  | mcq
  | tf
deriving DecidableEq, Repr

/-- A parsed question record as produced by the main component's
`parseAIResponse`.  The impurely generated `id` field is omitted here (it
is opaque and irrelevant to parsing); `Question` below carries it for the
regeneration model. -/
structure ParsedQ where
  qtype : QType
  question : Str
  answer : Str
  options : Option (List Str)
  context : Str
deriving DecidableEq, Repr

/-- A stored question of the main component (interface `Question` in
`quiz-creator.tsx`), with its unique id modelled as a `Nat`. -/
structure Question where
  id : Nat
  qtype : QType
  question : Str
  answer : Str
  options : Option (List Str)
  context : Str
deriving DecidableEq, Repr

/-- A stored question of the part_002 variant (type `Question` there has
no `context` field). -/
structure Q2 where
  id : Nat
  qtype : QType
  question : Str
  answer : Str
  options : Option (List Str)
deriving DecidableEq, Repr

/-- The question store of the main component (type `QuestionState`). -/
structure QState where
  fillInTheBlank : List Question
  multipleChoice : List Question
  trueFalse : List Question
deriving DecidableEq, Repr

/-- The list of the store holding questions of a given kind (the
`keyMap` dispatch in `handleRegenerate`). -/
def listOf (st : QState) : QType → List Question
  | QType.fib => st.fillInTheBlank
  | QType.mcq => st.multipleChoice
  | QType.tf => st.trueFalse

/-- Replace the list of the store holding questions of a given kind. -/
def setList (st : QState) : QType → List Question → QState
  | QType.fib, l => { st with fillInTheBlank := l }
  | QType.mcq, l => { st with multipleChoice := l }
  | QType.tf, l => { st with trueFalse := l }

/-- All stored questions in the order used by `gradeQuiz`:
fill-in-the-blank, then multiple choice, then true/false. -/
def allQuestions (st : QState) : List Question :=
  st.fillInTheBlank ++ st.multipleChoice ++ st.trueFalse

/-! ## The main component's response parsing (`parseAIResponse`)

The MCQ secondary pattern is the regular expression
`(.*?)(A\..*?B\..*?C\..*?D\..*)` with the dot-all flag, matched against
the trimmed question region.  With lazy groups this means: group 2 starts
at the earliest occurrence of the literal `"A."` that is followed, in
order, by a first occurrence of `"B."`, then `"C."`, then `"D."`; group 2
extends to the end of the string, and group 1 is everything before it. -/

/-- Does `s` contain `"B."`, then `"C."` at least two characters later,
then `"D."` at least two characters after that?  This is the part of the
MCQ pattern after the leading `"A."`. -/
def mcqTail (s : Str) : Bool :=
  match splitFirst (strOf "B.") s with
  | none => false
  | some (_, s1) =>
    match splitFirst (strOf "C.") s1 with
    | none => false
    | some (_, s2) => (splitFirst (strOf "D.") s2).isSome

/-- Can the MCQ pattern group 2 start at the head of `s`? -/
def mcqHere (s : Str) : Bool :=
  startsWithStr (strOf "A.") s && mcqTail (s.drop 2)

/-- Model of matching `(.*?)(A\..*?B\..*?C\..*?D\..*)` (dot-all): returns
`some (group1, group2)` splitting at the earliest viable start of group 2,
or `none` when the pattern does not match. -/
def mcqMatch : Str → Option (Str × Str)
  | [] => none
  | c :: rest =>
    if mcqHere (c :: rest) then some ([], c :: rest)
    else
      match mcqMatch rest with
      | some (pre, suf) => some (c :: pre, suf)
      | none => none

/-- Is `s` positioned at an option label, i.e. a character `A`–`D`
followed by a dot?  Used by the option splitting below. -/
def atLabel : Str → Bool
  | c :: d :: _ => (c = 'A' || c = 'B' || c = 'C' || c = 'D') && d = '.'
  | _ => false

/-- Model of `opts.split(/(?=[A-D]\.)/)`: split before every option label
occurring at index at least 1 (JavaScript's `split` never cuts at a
zero-width match at the start of the string). -/
def splitLabelsAux : Str → Str → List Str
  | acc, [] => [acc.reverse]
  | acc, c :: rest =>
    if acc ≠ [] && atLabel (c :: rest) then
      acc.reverse :: splitLabelsAux [c] rest
    else
      splitLabelsAux (c :: acc) rest

/-- Split an options block at each embedded option label. -/
def splitLabels (s : Str) : List Str := splitLabelsAux [] s

/-- Model of the main component's per-string parser (the body of the
`parse` closure in `parseAIResponse`): split at the FIRST `"Answer:"`
(destructured `split`), trim both sides, and for MCQ run the secondary
pattern to separate the stem from the options block.  The later
`.filter(q => q.question && q.answer)` step is `parseBatchMain` below. -/
def parseRecordMain (q : Str) (t : QType) (ctx : Str) : ParsedQ :=
  let pr : Str × Str :=
    match splitFirst ansMarker q with
    | some (b, a) => (b, a)
    | none => (q, [])
  let answer := trimStr pr.2
  let tq := trimStr pr.1
  match t, mcqMatch tq with
  | QType.mcq, some (stem, opts) =>
    { qtype := t
      question := trimStr stem
      answer := answer
      options := some (((splitLabels opts).map trimStr).filter (fun o => !o.isEmpty))
      context := ctx }
  | _, _ =>
    { qtype := t, question := tq, answer := answer, options := none, context := ctx }

/-- Model of one call of the `parse` closure in `parseAIResponse` on a
whole array: map the per-string parser over the raw strings and filter
out records with an empty question or an empty answer. -/
def parseBatchMain (raws : List Str) (t : QType) (ctx : Str) : List ParsedQ :=
  (raws.map (fun q => parseRecordMain q t ctx)).filter
    (fun p => !p.question.isEmpty && !p.answer.isEmpty)

/-! ## The part_002 variant's parser (`parseQuestion`) -/

/-- Model of `line.replace(/^[A-D]\.?\s*/, '')`: strip one leading label
letter, an optional dot, and any following whitespace. -/
def stripLabel : Str → Str
  | [] => []
  | c :: rest =>
    if c = 'A' || c = 'B' || c = 'C' || c = 'D' then
      (match rest with
       | '.' :: r => r
       | r => r).dropWhile isWsChar
    else c :: rest

/-- Split a string at every newline character (model of
`s.split('\n')`). -/
def splitNlAux : Str → Str → List Str
  | acc, [] => [acc.reverse]
  | acc, c :: rest =>
    if c = '\n' then acc.reverse :: splitNlAux [] rest
    else splitNlAux (c :: acc) rest

/-- Split at newlines. -/
def splitNl (s : Str) : List Str := splitNlAux [] s

/-- Model of the part_002 variant's `parseQuestion`: split at the LAST
`"Answer:"` (via `lastIndexOf`); on a missing marker return `null`
(`none`).  For MCQ, split the question region into non-blank lines; with
more than one line the first line is the question and the remaining lines,
trimmed and label-stripped, are the options; otherwise the options list is
empty.  The impure `generateUniqueId()` is modelled by the `newId`
parameter. -/
def parseQuestionP2 (raw : Str) (t : QType) (newId : Nat) : Option Q2 :=
  match lastSplit ansMarker raw with
  | none => none
  | some (b, a) =>
    let questionText := trimStr b
    let answerText := trimStr a
    if t = QType.mcq then
      match (splitNl questionText).filter (fun l => !(trimStr l).isEmpty) with
      | l0 :: l1 :: rest =>
        some { id := newId, qtype := t, question := l0, answer := answerText
               options := some ((l1 :: rest).map (fun l => stripLabel (trimStr l))) }
      | _ =>
        some { id := newId, qtype := t, question := questionText,
               answer := answerText, options := some [] }
    else
      some { id := newId, qtype := t, question := questionText,
             answer := answerText, options := none }

/-! ## Grading engines

Three grading implementations exist in the source: `gradeQuiz` in the
main component, `gradeQuiz` in the part_003 variant, and
`handleGradeQuiz` in the part_002 variant.  Each is modelled as the
per-question correctness predicate evaluated inside the grading loop;
`none` for the user answer models an absent `userAnswers[q.id]` entry. -/

/-- Normalisation applied on both sides by all three engines:
`s.trim().toLowerCase()`. -/
def norm (s : Str) : Str := (trimStr s).map Char.toLower

/-- Model of `s.replace('.', '')` (a string pattern replaces only the
first occurrence). -/
def removeFirstDot : Str → Str
  | [] => []
  | c :: rest => if c = '.' then rest else c :: removeFirstDot rest

/-- Main component `gradeQuiz` per-question verdict: an unanswered or
empty answer is incorrect; MCQ uses
`userAnswer.trim().toLowerCase().startsWith(q.answer.trim().toLowerCase())`;
other kinds use normalised equality. -/
def isCorrectMain (q : ParsedQ) (ua : Option Str) : Bool :=
  match ua with
  | none => false
  | some u =>
    if u.isEmpty then false
    else if q.qtype = QType.mcq then startsWithStr (norm q.answer) (norm u)
    else norm u == norm q.answer

/-- Part_002 variant `handleGradeQuiz` per-question verdict: MCQ uses
`correctAnswer.includes(userAnswer || "___xyz___")` where `userAnswer` is
the normalised user answer (the fallback token guards the
undefined/empty case); other kinds use normalised equality (an absent
entry compares unequal). -/
def isCorrectP2 (q : ParsedQ) (ua : Option Str) : Bool :=
  let correctAnswer := norm q.answer
  if q.qtype = QType.mcq then
    let u :=
      match ua with
      | none => strOf "___xyz___"
      | some s => if (norm s).isEmpty then strOf "___xyz___" else norm s
    containsStr u correctAnswer
  else
    match ua with
    | none => false
    | some s => norm s == correctAnswer

/-- Part_003 variant `gradeQuiz` per-question verdict: MCQ accepts
normalised equality, equality after removing the first `'.'` from both
sides, or equality with ANY non-empty option's normalised text. -/
def isCorrectP3 (q : ParsedQ) (ua : Option Str) : Bool :=
  match ua with
  | none => false
  | some u =>
    if u.isEmpty then false
    else if q.qtype = QType.mcq then
      let nu := norm u
      let na := norm q.answer
      nu == na || removeFirstDot nu == removeFirstDot na ||
        (match q.options with
         | some opts => opts.any (fun opt => !opt.isEmpty && nu == norm opt)
         | none => false)
    else norm u == norm q.answer

/-! ## Regeneration -/

/-- Model of the parsing section of the main component's
`handleRegenerate`: split the response at the FIRST `"Answer:"`, trim,
and re-run the MCQ pattern when the question is an MCQ and the raw
question region is non-empty.  Returns
`(finalNewQuestion, newAnswer, newOptions)`; `none` options model the
`newOptions` variable staying `undefined`. -/
def regenParseMain (t : QType) (resp : Str) : Str × Str × Option (List Str) :=
  let pr : Str × Str :=
    match splitFirst ansMarker resp with
    | some (b, a) => (b, a)
    | none => (resp, [])
  let newAnswer := trimStr pr.2
  if t = QType.mcq && !pr.1.isEmpty then
    match mcqMatch (trimStr pr.1) with
    | some (stem, opts) =>
      (trimStr stem, newAnswer,
        some (((splitLabels opts).map trimStr).filter (fun o => !o.isEmpty)))
    | none => (trimStr pr.1, newAnswer, none)
  else (trimStr pr.1, newAnswer, none)

/-- The `updatedQuestion` object built by `handleRegenerate`: the spread
`{ ...question, question, answer, ...(newOptions && { options }) }`
keeps `id`, `type` and `context`, and keeps the original options when
`newOptions` is undefined. -/
def regenUpdatedMain (target : Question) (resp : Str) : Question :=
  let pr := regenParseMain target.qtype resp
  { target with
    question := pr.1
    answer := pr.2.1
    options := match pr.2.2 with
               | some o => some o
               | none => target.options }

/-- Model of the state update in `handleRegenerate`: in the list holding
the target's kind, every question whose id equals the target's id is
replaced by the updated question (unconditionally — there is no discard
check on this path). -/
def applyRegenMainState (st : QState) (target : Question) (resp : Str) : QState :=
  setList st target.qtype
    ((listOf st target.qtype).map
      (fun q => if q.id = target.id then regenUpdatedMain target resp else q))

/-- Model of the part_002 variant's `handleRegenerateQuestion`: the
response is parsed with `parseQuestion`; on a `null` parse the list is
left unchanged, otherwise the target is replaced by the freshly parsed
question (which carries a FRESH id `newId`). -/
def applyRegenP2 (qs : List Q2) (target : Q2) (resp : Str) (newId : Nat) : List Q2 :=
  match parseQuestionP2 resp target.qtype newId with
  | none => qs
  | some nq => qs.map (fun q => if q.id = target.id then nq else q)

/-! ## The question request planner

The sequential variant (`handleGenerateQuestions` in the main component
and in part_003) walks the chunks in order; for one question type with
requested total `total` over `C` chunks, chunk `i` is allocated
`base + 1` when `i < total % C` and `base` otherwise
(`base = Math.floor(total / C)`), clamped by
`Math.min(alloc, total - generatedSoFar)`.

The concurrent variant (part_002) requests
`Math.ceil(total / chunks.length)` per chunk via `Promise.all`, merges,
and truncates each per-type list with `slice(0, total)`.

The external generation call composed with parsing is abstracted as
`gen : Nat → Nat → Nat`, where `gen i n` is the number of successfully
parsed questions obtained from chunk `i` when `n` are requested; the
exact-delivery hypothesis of the claims is `∀ i n, gen i n = n`. -/

/-- Per-chunk allocation for one question type (sequential planner,
before clamping). -/
def allocChunk (total C i : Nat) : Nat :=
  total / C + (if i < total % C then 1 else 0)

/-- Final generated count of one question type for the sequential
planner: fold the per-chunk clamped requests over the chunks in order,
accumulating the running generated count. -/
def seqGenRun (gen : Nat → Nat → Nat) (total C : Nat) : Nat :=
  (List.range C).foldl
    (fun g i => g + gen i (min (allocChunk total C i) (total - g))) 0

/-- The per-chunk request of the concurrent planner:
`Math.ceil(total / C)`. -/
def ceilDiv (total C : Nat) : Nat := (total + C - 1) / C

/-- Final stored count of one question type for the concurrent planner:
every chunk contributes `gen i (ceilDiv total C)` to the merged list,
which is then truncated by `slice(0, total)`. -/
def concGenRun (gen : Nat → Nat → Nat) (total C : Nat) : Nat :=
  min total ((List.range C).foldl (fun acc i => acc + gen i (ceilDiv total C)) 0)

/-! ## The chunker (`intelligentlyChunkDocumentFlow`) -/

/-- Is `c` one of the sentence separators `'.'` or `'\n'` that
`documentContent.split(/[.\n]/)` cuts at? -/
def isSepChar (c : Char) : Bool := c = '.' || c = '\n'

/-- Accumulator-style splitting at every separator character. -/
def splitSentencesAux : Str → Str → List Str
  | acc, [] => [acc.reverse]
  | acc, c :: rest =>
    if isSepChar c then acc.reverse :: splitSentencesAux [] rest
    else splitSentencesAux (c :: acc) rest

/-- Model of `documentContent.split(/[.\n]/)`. -/
def splitSentences (s : Str) : List Str := splitSentencesAux [] s

/-- The chunk-accumulation loop of `intelligentlyChunkDocumentFlow`:
append `sentence + ". "` to the current chunk while the size check
`currentChunk.length + sentence.length + 1 <= 1300` passes, otherwise
flush the current chunk (trimmed, when non-empty) and start a new one;
flush the residue at the end. -/
def chunkLoop : List Str → Str → List Str
  | [], cur => if 0 < cur.length then [trimStr cur] else []
  | s :: rest, cur =>
    if cur.length + s.length + 1 ≤ 1300 then
      chunkLoop rest (cur ++ s ++ strOf ". ")
    else if 0 < cur.length then
      trimStr cur :: chunkLoop rest (s ++ strOf ". ")
    else
      chunkLoop rest (s ++ strOf ". ")

/-- The chunker: split into sentence-like segments, then accumulate. -/
def chunkDocument (doc : Str) : List Str :=
  chunkLoop (splitSentences doc) []

/-- All non-whitespace characters of a string, in order. -/
def nonWs (s : Str) : Str := s.filter (fun c => !isWsChar c)

/-- Keep characters that are neither whitespace nor a period (the
content the chunker actually preserves). -/
def keepChar (c : Char) : Bool := !isWsChar c && c ≠ '.'

/-- All characters that are neither whitespace nor a period, in order. -/
def nonWsDot (s : Str) : Str := s.filter keepChar

/-! ## Planner lemmas -/

/-- Running total of the sequential planner after the first `i` chunks,
under exact delivery: the clamp never bites, and the total is
`i * base + min i remainder`. -/
lemma seq_foldl_range (gen : Nat → Nat → Nat) (hgen : ∀ i n, gen i n = n)
    (total C : Nat) :
    ∀ i, i ≤ C →
      (List.range i).foldl
          (fun g j => g + gen j (min (allocChunk total C j) (total - g))) 0
        = i * (total / C) + min i (total % C) := by
  intro i
  induction i with
  | zero => simp
  | succ k ih =>
    intro hk
    have hk' : k ≤ C := Nat.le_of_succ_le hk
    rw [List.range_succ, List.foldl_append, ih hk', List.foldl_cons,
      List.foldl_nil, hgen]
    have hdm : C * (total / C) + total % C = total := Nat.div_add_mod total C
    have hmul : (k + 1) * (total / C) ≤ C * (total / C) :=
      Nat.mul_le_mul_right _ hk
    have hsucc : (k + 1) * (total / C) = k * (total / C) + total / C :=
      Nat.succ_mul k (total / C)
    by_cases h : k < total % C
    · have h1 : min k (total % C) = k := Nat.min_eq_left (Nat.le_of_lt h)
      have h2 : min (k + 1) (total % C) = k + 1 :=
        Nat.min_eq_left (Nat.succ_le_of_lt h)
      have h3 : allocChunk total C k = total / C + 1 := by
        simp [allocChunk, h]
      rw [h1, h2, h3]
      have hle : k * (total / C) + k + (total / C + 1) ≤ total := by omega
      have hmin : min (total / C + 1) (total - (k * (total / C) + k))
          = total / C + 1 := Nat.min_eq_left (by omega)
      rw [hmin]; omega
    · have h1 : min k (total % C) = total % C :=
        Nat.min_eq_right (Nat.le_of_not_lt h)
      have h2 : min (k + 1) (total % C) = total % C :=
        Nat.min_eq_right (by omega)
      have h3 : allocChunk total C k = total / C := by
        simp [allocChunk, h]
      rw [h1, h2, h3]
      have hle : k * (total / C) + total % C + total / C ≤ total := by omega
      have hmin : min (total / C) (total - (k * (total / C) + total % C))
          = total / C := Nat.min_eq_left (by omega)
      rw [hmin]; omega

/-- Under exact delivery and at least one chunk, the sequential planner
generates exactly the requested total. -/
lemma seqGenRun_exact (gen : Nat → Nat → Nat) (hgen : ∀ i n, gen i n = n)
    (total C : Nat) (hC : 1 ≤ C) : seqGenRun gen total C = total := by
  unfold seqGenRun
  rw [seq_foldl_range gen hgen total C C (Nat.le_refl C)]
  have h1 : total % C < C := Nat.mod_lt total hC
  have h2 : C * (total / C) + total % C = total := Nat.div_add_mod total C
  have h3 : min C (total % C) = total % C := Nat.min_eq_right (Nat.le_of_lt h1)
  rw [h3]
  omega

/-- The merged list of the concurrent planner has `C * ceilDiv total C`
entries under exact delivery and full parse success. -/
lemma conc_foldl_range (gen : Nat → Nat → Nat) (hgen : ∀ i n, gen i n = n)
    (d : Nat) :
    ∀ C, (List.range C).foldl (fun acc i => acc + gen i d) 0 = C * d := by
  intro C
  induction C with
  | zero => simp
  | succ k ih =>
    rw [List.range_succ, List.foldl_append, ih, List.foldl_cons,
      List.foldl_nil, hgen, Nat.succ_mul]

/-- With at least one chunk, `C` requests of `ceil(total / C)` cover the
requested total. -/
lemma le_mul_ceilDiv (total C : Nat) (hC : 1 ≤ C) :
    total ≤ C * ceilDiv total C := by
  unfold ceilDiv
  have h1 : C * ((total + C - 1) / C) + (total + C - 1) % C = total + C - 1 :=
    Nat.div_add_mod (total + C - 1) C
  have h2 : (total + C - 1) % C < C := Nat.mod_lt _ hC
  omega

/-- Under exact delivery and at least one chunk, the concurrent planner
stores exactly the requested total after truncation. -/
lemma concGenRun_exact (gen : Nat → Nat → Nat) (hgen : ∀ i n, gen i n = n)
    (total C : Nat) (hC : 1 ≤ C) : concGenRun gen total C = total := by
  unfold concGenRun
  rw [conc_foldl_range gen hgen (ceilDiv total C) C]
  exact Nat.min_eq_left (le_mul_ceilDiv total C hC)

/-! ## Regeneration lemmas -/

/-- Number of stored questions carrying a given id. -/
def countId (l : List Question) (i : Nat) : Nat :=
  (l.filter (fun q => q.id == i)).length

lemma countId_append (a b : List Question) (i : Nat) :
    countId (a ++ b) i = countId a i + countId b i := by
  simp [countId, List.filter_append]

lemma filter_map_replace (l : List Question) (i : Nat) (upd : Question)
    (hupd : upd.id = i) :
    (l.map (fun q => if q.id = i then upd else q)).filter (fun q => q.id == i)
      = (l.filter (fun q => q.id == i)).map (fun _ => upd) := by
  induction l with
  | nil => rfl
  | cons q rest ih =>
    by_cases hq : q.id = i
    · simp [List.filter_cons, hq, hupd, ih]
    · simp [List.filter_cons, hq, ih]

lemma countId_map_replace (l : List Question) (i : Nat) (upd : Question)
    (hupd : upd.id = i) :
    countId (l.map (fun q => if q.id = i then upd else q)) i = countId l i := by
  unfold countId
  rw [filter_map_replace l i upd hupd]
  simp

lemma mem_map_replace (l : List Question) (i : Nat) (upd : Question)
    (q2 : Question) (hq2 : q2 ∈ l.map (fun q => if q.id = i then upd else q))
    (hid : q2.id = i) : q2 = upd := by
  obtain ⟨q, _, hq⟩ := List.mem_map.mp hq2
  by_cases h : q.id = i
  · simpa [h] using hq.symm
  · rw [if_neg h] at hq
    exact absurd (hq ▸ hid) h

lemma one_le_countId_of_mem (l : List Question) (q : Question) (hq : q ∈ l) :
    1 ≤ countId l q.id := by
  have : q ∈ l.filter (fun p => p.id == q.id) :=
    List.mem_filter.mpr ⟨hq, by simp⟩
  have := List.length_pos.mpr (List.ne_nil_of_mem this)
  simpa [countId] using this

lemma not_mem_id_of_countId_zero (l : List Question) (i : Nat)
    (h : countId l i = 0) (q : Question) (hq : q ∈ l) : q.id ≠ i := by
  intro hid
  have hmemf : q ∈ l.filter (fun p => p.id == i) :=
    List.mem_filter.mpr ⟨hq, by simp [hid]⟩
  have hpos := List.length_pos.mpr (List.ne_nil_of_mem hmemf)
  unfold countId at h
  omega

/-- Decompose the stored questions before and after a regeneration into
the untouched lists around the touched one. -/
lemma allQuestions_applyRegen (st : QState) (target : Question) (resp : Str) :
    ∃ pre post,
      allQuestions st = pre ++ listOf st target.qtype ++ post ∧
      allQuestions (applyRegenMainState st target resp)
        = pre ++ (listOf st target.qtype).map
            (fun q => if q.id = target.id then regenUpdatedMain target resp else q)
          ++ post := by
  cases h : target.qtype with
  | fib =>
    exact ⟨[], st.multipleChoice ++ st.trueFalse, by
      simp [allQuestions, listOf, h], by
      simp [allQuestions, applyRegenMainState, setList, listOf, h]⟩
  | mcq =>
    exact ⟨st.fillInTheBlank, st.trueFalse, by
      simp [allQuestions, listOf, h], by
      simp [allQuestions, applyRegenMainState, setList, listOf, h]⟩
  | tf =>
    exact ⟨st.fillInTheBlank ++ st.multipleChoice, [], by
      simp [allQuestions, listOf, h], by
      simp [allQuestions, applyRegenMainState, setList, listOf, h]⟩

lemma regenUpdatedMain_id (target : Question) (resp : Str) :
    (regenUpdatedMain target resp).id = target.id := rfl

lemma regenUpdatedMain_qtype (target : Question) (resp : Str) :
    (regenUpdatedMain target resp).qtype = target.qtype := rfl

lemma regenUpdatedMain_context (target : Question) (resp : Str) :
    (regenUpdatedMain target resp).context = target.context := rfl

/-! ## Parser lemmas -/

lemma lastSplit_none_of_splitFirst_none (pat : Str) :
    ∀ s, splitFirst pat s = none → lastSplit pat s = none := by
  intro s
  induction s with
  | nil =>
    intro h
    unfold splitFirst at h
    unfold lastSplit
    split at h
    · exact absurd h (by simp)
    · simp [*]
  | cons c rest ih =>
    intro h
    unfold splitFirst at h
    unfold lastSplit
    split at h
    · exact absurd h (by simp)
    · rename_i hsw
      rw [ih (by
        rcases he : splitFirst pat rest with _ | p
        · rfl
        · rw [he] at h; simp at h)]
      simp [hsw]

lemma parseRecordMain_no_marker (s : Str) (t : QType) (ctx : Str)
    (h : splitFirst ansMarker s = none) :
    (parseRecordMain s t ctx).answer = [] := by
  cases t <;> simp only [parseRecordMain, h] <;>
    rcases hm : mcqMatch (trimStr s) with _ | ⟨stem, opts⟩ <;>
    (try simp only [hm]) <;> rfl

lemma parseBatchMain_append (xs ys : List Str) (t : QType) (ctx : Str) :
    parseBatchMain (xs ++ ys) t ctx
      = parseBatchMain xs t ctx ++ parseBatchMain ys t ctx := by
  simp [parseBatchMain, List.filter_append]

/-! ## Chunker lemmas -/

lemma splitSentencesAux_flatten :
    ∀ (s acc : Str),
      (splitSentencesAux acc s).flatten
        = acc.reverse ++ s.filter (fun c => !isSepChar c) := by
  intro s
  induction s with
  | nil => intro acc; simp [splitSentencesAux]
  | cons c rest ih =>
    intro acc
    unfold splitSentencesAux
    by_cases hc : isSepChar c
    · simp [hc, ih, List.filter_cons]
    · simp [hc, ih, List.filter_cons]

lemma splitSentences_flatten (doc : Str) :
    (splitSentences doc).flatten = doc.filter (fun c => !isSepChar c) := by
  simpa using splitSentencesAux_flatten doc []

lemma filter_keep_dropWhile_ws :
    ∀ s : Str, (s.dropWhile isWsChar).filter keepChar = s.filter keepChar := by
  intro s
  induction s with
  | nil => rfl
  | cons c rest ih =>
    by_cases hc : isWsChar c
    · have hk : keepChar c = false := by simp [keepChar, hc]
      simp [List.dropWhile_cons, hc, List.filter_cons, hk, ih]
    · simp [List.dropWhile_cons, hc]

lemma filter_keep_trim (s : Str) :
    (trimStr s).filter keepChar = s.filter keepChar := by
  unfold trimStr
  rw [List.filter_reverse, filter_keep_dropWhile_ws, List.filter_reverse,
    List.reverse_reverse, filter_keep_dropWhile_ws]

lemma chunkLoop_flatten :
    ∀ (segs : List Str) (cur : Str),
      ((chunkLoop segs cur).flatten).filter keepChar
        = cur.filter keepChar ++ (segs.flatten).filter keepChar := by
  intro segs
  induction segs with
  | nil =>
    intro cur
    unfold chunkLoop
    by_cases hcur : 0 < cur.length
    · simp [hcur, filter_keep_trim]
    · have : cur = [] := List.length_eq_zero.mp (by omega)
      simp [hcur, this]
  | cons s rest ih =>
    intro cur
    unfold chunkLoop
    have hdot : (strOf ". ").filter keepChar = [] := rfl
    by_cases h1 : cur.length + s.length + 1 ≤ 1300
    · simp [h1, ih, List.filter_append, hdot]
    · by_cases h2 : 0 < cur.length
      · simp [h1, h2, ih, List.filter_append, hdot, filter_keep_trim]
      · have : cur = [] := List.length_eq_zero.mp (by omega)
        simp [h1, h2, this, ih, List.filter_append, hdot]

lemma notSep_and_keep (a : Char) :
    (keepChar a && !isSepChar a) = keepChar a := by
  by_cases h1 : a = '.' <;> by_cases h2 : a = '\n' <;>
    simp [isSepChar, keepChar, isWsChar, h1, h2]

lemma chunkDocument_content (doc : Str) :
    ((chunkDocument doc).flatten).filter keepChar = doc.filter keepChar := by
  unfold chunkDocument
  rw [chunkLoop_flatten, splitSentences_flatten]
  simp only [List.filter_nil, List.nil_append, List.filter_filter]
  exact List.filter_congr (fun a _ => notSep_and_keep a)

/-! ## Concrete fixtures used by counterexamples and witnesses -/

/-- A stored fill-in-the-blank question of the main component. -/
def sampleQ : Question :=
  { id := 7, qtype := QType.fib,
    question := strOf "The capital of France is ____.",
    answer := strOf "Paris", options := none,
    context := strOf "chapter one" }

/-- The same stored question in the part_002 variant's shape. -/
def sampleQ2 : Q2 :=
  { id := 7, qtype := QType.fib,
    question := strOf "The capital of France is ____.",
    answer := strOf "Paris", options := none }

/-- A regeneration response that lacks the `"Answer:"` marker. -/
def noMarkerResp : Str := strOf "A regenerated question with no marker"

/-- A well-formed regeneration response. -/
def regenResp : Str := strOf "The capital of Germany is ____. Answer: Berlin"

/-- The MCQ fixture of the grading claim: canonical answer `"C. Tokyo"`,
options `["Beijing","Seoul","Tokyo","Bangkok"]`. -/
def mcqTokyo : ParsedQ :=
  { qtype := QType.mcq,
    question := strOf "Which city is the capital of Japan?",
    answer := strOf "C. Tokyo",
    options := some [strOf "Beijing", strOf "Seoul", strOf "Tokyo", strOf "Bangkok"],
    context := [] }

/-- The synthetic MCQ response of the parser round-trip claim. -/
def synthMcq : Str := strOf "<stem>\nA. x\nB. y\nC. z\nD. w\nAnswer: B. y"

/-! ## Claim C1 -/

/-- C1 (counterexample): the claim says the Response Parser splits at the
LAST occurrence of `"Answer:"`.  On `"Q Answer: A Answer: B"` the main
component's `parseAIResponse` produces prompt `"Q"` and canonical answer
`"A Answer: B"` — the split around the FIRST occurrence — whereas the
last-occurrence split demanded by the claim would give prompt
`"Q Answer: A"` and answer `"B"`. -/
theorem c1_counterexample :
    (parseRecordMain (strOf "Q Answer: A Answer: B") QType.fib []).question
      = strOf "Q" ∧
    (parseRecordMain (strOf "Q Answer: A Answer: B") QType.fib []).answer
      = strOf "A Answer: B" ∧
    (lastSplit ansMarker (strOf "Q Answer: A Answer: B")).map
        (fun p => (trimStr p.1, trimStr p.2))
      = some (strOf "Q Answer: A", strOf "B") ∧
    strOf "Q" ≠ strOf "Q Answer: A" ∧
    strOf "A Answer: B" ≠ strOf "B" := by decide

/-- C1 (amended): the main component's `parseAIResponse` splits at the
FIRST occurrence of `"Answer:"`: the text before it, trimmed, is the
prompt region and the text after it (later markers kept verbatim),
trimmed, is the canonical answer; the part_002 variant's `parseQuestion`
splits at the last occurrence as the claim states. -/
theorem c1_amended_split_at_first :
    (∀ (s b a ctx : Str), splitFirst ansMarker s = some (b, a) →
      (parseRecordMain s QType.fib ctx).question = trimStr b ∧
      (parseRecordMain s QType.tf ctx).question = trimStr b ∧
      (∀ t : QType, (parseRecordMain s t ctx).answer = trimStr a)) ∧
    (∀ (s b a : Str) (nid : Nat), lastSplit ansMarker s = some (b, a) →
      parseQuestionP2 s QType.fib nid
        = some { id := nid, qtype := QType.fib, question := trimStr b,
                 answer := trimStr a, options := none }) := by
  constructor
  · intro s b a ctx h
    refine ⟨by simp [parseRecordMain, h], by simp [parseRecordMain, h], ?_⟩
    intro t
    cases t <;> simp only [parseRecordMain, h] <;>
      rcases hm : mcqMatch (trimStr b) with _ | ⟨stem, opts⟩ <;>
      simp [hm]
  · intro s b a nid h
    simp [parseQuestionP2, h]

/-- C1 (witness): the amended statement evaluated on `"X Answer: Y"`. -/
theorem c1_amended_split_at_first_witness :
    (parseRecordMain (strOf "X Answer: Y") QType.fib []).question
      = trimStr (strOf "X ") ∧
    (parseRecordMain (strOf "X Answer: Y") QType.mcq []).answer
      = trimStr (strOf " Y") ∧
    parseQuestionP2 (strOf "X Answer: Y") QType.fib 0
      = some { id := 0, qtype := QType.fib, question := trimStr (strOf "X "),
               answer := trimStr (strOf " Y"), options := none } :=
  ⟨(c1_amended_split_at_first.1 (strOf "X Answer: Y") (strOf "X ") (strOf " Y")
      [] (by decide)).1,
   (c1_amended_split_at_first.1 (strOf "X Answer: Y") (strOf "X ") (strOf " Y")
      [] (by decide)).2.2 QType.mcq,
   c1_amended_split_at_first.2 (strOf "X Answer: Y") (strOf "X ") (strOf " Y")
      0 (by decide)⟩

/-! ## Claim C2 -/

/-- C2 (evaluation at the failing input): for the MCQ fixture with
canonical answer `"C. Tokyo"`, the main component's `gradeQuiz`
(testing `userAnswer.startsWith(canonicalAnswer)`) marks the letter
answers `"C"` and `"C."` and the option text `"Tokyo"` INCORRECT,
against the claim; only `"c. tokyo"` grades correct.  The part_002
variant's `handleGradeQuiz` (substring containment) grades exactly as
the claim states, and the part_003 variant additionally grades the wrong
option `"Seoul"` correct. -/
theorem c2_grading_verdicts :
    isCorrectMain mcqTokyo (some (strOf "C")) = false ∧
    isCorrectMain mcqTokyo (some (strOf "C.")) = false ∧
    isCorrectMain mcqTokyo (some (strOf "c. tokyo")) = true ∧
    isCorrectMain mcqTokyo (some (strOf "Tokyo")) = false ∧
    isCorrectMain mcqTokyo (some (strOf "Seoul")) = false ∧
    isCorrectP2 mcqTokyo (some (strOf "C")) = true ∧
    isCorrectP2 mcqTokyo (some (strOf "C.")) = true ∧
    isCorrectP2 mcqTokyo (some (strOf "c. tokyo")) = true ∧
    isCorrectP2 mcqTokyo (some (strOf "Tokyo")) = true ∧
    isCorrectP2 mcqTokyo (some (strOf "Seoul")) = false ∧
    isCorrectP3 mcqTokyo (some (strOf "C")) = false ∧
    isCorrectP3 mcqTokyo (some (strOf "C.")) = false ∧
    isCorrectP3 mcqTokyo (some (strOf "c. tokyo")) = true ∧
    isCorrectP3 mcqTokyo (some (strOf "Tokyo")) = true ∧
    isCorrectP3 mcqTokyo (some (strOf "Seoul")) = true := by decide

/-! ## Claim C3 -/

/-- C3: for all requested per-type totals and chunk count `C ≥ 1`, the
sequential planner's floor-and-remainder allocation with running
clamping sums to exactly the requested total of each question type,
assuming each generation call returns exactly the requested number of
questions per chunk. -/
theorem c3_allocation_sums (nFill nMcq nTf C : Nat) (gen : Nat → Nat → Nat)
    (hC : 1 ≤ C) (hgen : ∀ i n, gen i n = n) :
    seqGenRun gen nFill C = nFill ∧ seqGenRun gen nMcq C = nMcq ∧
      seqGenRun gen nTf C = nTf :=
  ⟨seqGenRun_exact gen hgen nFill C hC, seqGenRun_exact gen hgen nMcq C hC,
    seqGenRun_exact gen hgen nTf C hC⟩

/-- C3 (witness): totals `(5, 4, 3)` over `3` chunks. -/
theorem c3_allocation_sums_witness :
    seqGenRun (fun _ n => n) 5 3 = 5 ∧ seqGenRun (fun _ n => n) 4 3 = 4 ∧
      seqGenRun (fun _ n => n) 3 3 = 3 :=
  c3_allocation_sums 5 4 3 3 (fun _ n => n) (by decide) (fun _ _ => rfl)

/-! ## Claim C4 -/

/-- C4 (counterexample): the claim says no non-whitespace character
absent from the input is introduced.  On input `"ab\ncd"` the chunker
returns the single chunk `"ab. cd."`: its non-whitespace content is
`"ab.cd."`, which introduces two periods that the input (non-whitespace
content `"abcd"`) does not contain. -/
theorem c4_counterexample :
    chunkDocument (strOf "ab\ncd") = [strOf "ab. cd."] ∧
    nonWs ((chunkDocument (strOf "ab\ncd")).flatten) = strOf "ab.cd." ∧
    nonWs (strOf "ab\ncd") = strOf "abcd" ∧
    strOf "ab.cd." ≠ strOf "abcd" := by decide

/-- C4 (amended): concatenating all chunks reproduces, exactly once and
in order, every input character that is neither whitespace nor a period;
periods and newlines are replaced by the inserted `". "` separators, so
period content itself is not preserved. -/
theorem c4_amended_content (doc : Str) :
    nonWsDot ((chunkDocument doc).flatten) = nonWsDot doc :=
  chunkDocument_content doc

/-! ## Claim C5 -/

/-- C5 (counterexample): regenerating a stored question from a response
with no `"Answer:"` marker stores a question with an EMPTY canonical
answer — the main component's `handleRegenerate` applies the replacement
without the parser's discard filter. -/
theorem c5_counterexample :
    ¬ (∀ q ∈ allQuestions
          (applyRegenMainState ⟨[sampleQ], [], []⟩ sampleQ noMarkerResp),
        q.question ≠ [] ∧ q.answer ≠ []) := by decide

/-- C5 (amended): every question stored by the BULK generation path of
the main component (`parseAIResponse` with its final filter) has a
non-empty prompt and non-empty canonical answer; the regeneration path
does not re-check the invariant. -/
theorem c5_amended_bulk_invariant (raws : List Str) (t : QType) (ctx : Str)
    (p : ParsedQ) (hp : p ∈ parseBatchMain raws t ctx) :
    p.question ≠ [] ∧ p.answer ≠ [] := by
  simp only [parseBatchMain] at hp
  have h := (List.mem_filter.mp hp).2
  simp only [Bool.and_eq_true, Bool.not_eq_true'] at h
  constructor
  · intro he; rw [he] at h; simp at h
  · intro he; rw [he] at h; simp at h

/-- C5 (witness): the bulk invariant on a well-formed raw response. -/
theorem c5_amended_bulk_invariant_witness :
    (parseRecordMain (strOf "The capital of France is ____. Answer: Paris")
        QType.fib []).question ≠ [] ∧
    (parseRecordMain (strOf "The capital of France is ____. Answer: Paris")
        QType.fib []).answer ≠ [] :=
  c5_amended_bulk_invariant
    [strOf "The capital of France is ____. Answer: Paris"] QType.fib []
    (parseRecordMain (strOf "The capital of France is ____. Answer: Paris")
      QType.fib []) (by decide)

/-! ## Claim C6 -/

/-- C6 (counterexample): a regeneration response with no `"Answer:"`
marker parses to an empty answer (failing the discard criteria), yet the
main component's `handleRegenerate` does NOT leave the original question
unchanged: the stored list differs from the original. -/
theorem c6_counterexample :
    (regenParseMain QType.fib noMarkerResp).2.1 = [] ∧
    allQuestions (applyRegenMainState ⟨[sampleQ], [], []⟩ sampleQ noMarkerResp)
      ≠ [sampleQ] := by decide

/-- C6 (amended): only the part_002 variant leaves the QuestionSet
unchanged on a failed replacement, and only for the missing-marker
failure (`parseQuestion` returning `null`); the main component applies
the freshly parsed replacement unconditionally (the updated question is
always stored when the target is present). -/
theorem c6_amended_regeneration
    (qs : List Q2) (target : Q2) (resp : Str) (nid : Nat)
    (hmiss : lastSplit ansMarker resp = none)
    (st : QState) (tq : Question) (hmem : tq ∈ listOf st tq.qtype) :
    applyRegenP2 qs target resp nid = qs ∧
    regenUpdatedMain tq resp ∈ listOf (applyRegenMainState st tq resp) tq.qtype := by
  constructor
  · simp [applyRegenP2, parseQuestionP2, hmiss]
  · have hl : listOf (applyRegenMainState st tq resp) tq.qtype
        = (listOf st tq.qtype).map
            (fun q => if q.id = tq.id then regenUpdatedMain tq resp else q) := by
      cases h : tq.qtype <;>
        simp [applyRegenMainState, setList, listOf, h]
    rw [hl]
    exact List.mem_map.mpr ⟨tq, hmem, by simp⟩

/-- C6 (witness): the amended statement on concrete stores. -/
theorem c6_amended_regeneration_witness :
    applyRegenP2 [sampleQ2] sampleQ2 noMarkerResp 9 = [sampleQ2] ∧
    regenUpdatedMain sampleQ noMarkerResp
      ∈ listOf (applyRegenMainState ⟨[sampleQ], [], []⟩ sampleQ noMarkerResp)
          sampleQ.qtype :=
  c6_amended_regeneration [sampleQ2] sampleQ2 noMarkerResp 9 (by decide)
    ⟨[sampleQ], [], []⟩ sampleQ (by decide)

/-! ## Claim C7 -/

/-- C7: in the main component, after regenerating the question with
id `X` (present exactly once in the store), the store still contains
exactly one question with id `X`, and every stored question with id `X`
has the same kind and the same source context as before; only prompt,
answer and options can have changed. -/
theorem c7_regeneration_identity (st : QState) (target : Question) (resp : Str)
    (hmem : target ∈ listOf st target.qtype)
    (hcount : countId (allQuestions st) target.id = 1) :
    countId (allQuestions (applyRegenMainState st target resp)) target.id = 1 ∧
    ∀ q2 ∈ allQuestions (applyRegenMainState st target resp),
      q2.id = target.id → q2.qtype = target.qtype ∧ q2.context = target.context := by
  obtain ⟨pre, post, h1, h2⟩ := allQuestions_applyRegen st target resp
  have hmid : 1 ≤ countId (listOf st target.qtype) target.id :=
    one_le_countId_of_mem _ target hmem
  rw [h1, countId_append, countId_append] at hcount
  have hpre : countId pre target.id = 0 := by omega
  have hpost : countId post target.id = 0 := by omega
  constructor
  · rw [h2, countId_append, countId_append,
      countId_map_replace _ _ _ (regenUpdatedMain_id target resp)]
    omega
  · intro q2 hq2 hid
    rw [h2] at hq2
    rcases List.mem_append.mp hq2 with hrest | hpost'
    · rcases List.mem_append.mp hrest with hpre' | hmid'
      · exact absurd hid (not_mem_id_of_countId_zero pre target.id hpre q2 hpre')
      · have heq := mem_map_replace _ _ _ q2 hmid' hid
        rw [heq]
        exact ⟨regenUpdatedMain_qtype target resp,
          regenUpdatedMain_context target resp⟩
    · exact absurd hid (not_mem_id_of_countId_zero post target.id hpost q2 hpost')

/-- C7 (witness): regenerating the sample question keeps exactly one
question with its id in the store. -/
theorem c7_regeneration_identity_witness :
    countId (allQuestions
        (applyRegenMainState ⟨[sampleQ], [], []⟩ sampleQ regenResp))
      sampleQ.id = 1 :=
  (c7_regeneration_identity ⟨[sampleQ], [], []⟩ sampleQ regenResp
    (by decide) (by decide)).1

/-! ## Claim C8 -/

/-- C8 (counterexample): parsing the synthetic MCQ string with the main
component yields options WITH their leading labels
(`["A. x","B. y","C. z","D. w"]`), not the label-stripped list
`["x","y","z","w"]` stated by the claim. -/
theorem c8_counterexample :
    (parseRecordMain synthMcq QType.mcq []).options
      = some [strOf "A. x", strOf "B. y", strOf "C. z", strOf "D. w"] ∧
    (parseRecordMain synthMcq QType.mcq []).options
      ≠ some [strOf "x", strOf "y", strOf "z", strOf "w"] := by decide

/-- C8 (amended): on the synthetic string the main component's parser
yields prompt `"<stem>"`, canonical answer `"B. y"`, and the ordered
options WITH their labels; the part_002 variant's `parseQuestion` yields
the same prompt and answer with the labels stripped, as the claim
states. -/
theorem c8_amended_roundtrip :
    (parseRecordMain synthMcq QType.mcq []).question = strOf "<stem>" ∧
    (parseRecordMain synthMcq QType.mcq []).answer = strOf "B. y" ∧
    (parseRecordMain synthMcq QType.mcq []).options
      = some [strOf "A. x", strOf "B. y", strOf "C. z", strOf "D. w"] ∧
    parseQuestionP2 synthMcq QType.mcq 0
      = some { id := 0, qtype := QType.mcq, question := strOf "<stem>",
               answer := strOf "B. y",
               options := some [strOf "x", strOf "y", strOf "z", strOf "w"] } := by
  decide

/-! ## Claim C9 -/

/-- C9: a raw response string with no `"Answer:"` substring is dropped
from the batch for every question kind (the batch result with it equals
the batch result without it, so the rest of the batch is unaffected),
and the part_002 variant's `parseQuestion` returns `null` on it. -/
theorem c9_missing_marker_dropped (xs ys : List Str) (s : Str) (t : QType)
    (ctx : Str) (nid : Nat) (h : splitFirst ansMarker s = none) :
    parseBatchMain (xs ++ s :: ys) t ctx = parseBatchMain (xs ++ ys) t ctx ∧
    parseQuestionP2 s t nid = none := by
  constructor
  · have hans := parseRecordMain_no_marker s t ctx h
    have hcons : parseBatchMain (s :: ys) t ctx = parseBatchMain ys t ctx := by
      simp [parseBatchMain, List.filter_cons, hans]
    rw [parseBatchMain_append, parseBatchMain_append, hcons]
  · simp [parseQuestionP2, lastSplit_none_of_splitFirst_none ansMarker s h]

/-- C9 (witness): dropping a marker-less string from a concrete batch. -/
theorem c9_missing_marker_dropped_witness :
    parseBatchMain [strOf "X Answer: Y", strOf "no marker here"] QType.fib []
      = parseBatchMain [strOf "X Answer: Y"] QType.fib [] ∧
    parseQuestionP2 (strOf "no marker here") QType.fib 0 = none :=
  c9_missing_marker_dropped [strOf "X Answer: Y"] [] (strOf "no marker here")
    QType.fib [] 0 (by decide)

/-! ## Claim C10 -/

/-- C10: under exact delivery and full parse success, the sequential
planner (floor-and-remainder allocation with clamping, committed chunk
by chunk) and the concurrent planner (each chunk requests
`ceil(total / C)` of each type, merged lists truncated to the requested
totals) both end with exactly the requested number of stored questions
of each type, for every chunk count `C ≥ 1`. -/
theorem c10_planner_equivalence (nFill nMcq nTf C : Nat)
    (gen : Nat → Nat → Nat) (hC : 1 ≤ C) (hgen : ∀ i n, gen i n = n) :
    (seqGenRun gen nFill C = nFill ∧ concGenRun gen nFill C = nFill) ∧
    (seqGenRun gen nMcq C = nMcq ∧ concGenRun gen nMcq C = nMcq) ∧
    (seqGenRun gen nTf C = nTf ∧ concGenRun gen nTf C = nTf) :=
  ⟨⟨seqGenRun_exact gen hgen nFill C hC, concGenRun_exact gen hgen nFill C hC⟩,
   ⟨seqGenRun_exact gen hgen nMcq C hC, concGenRun_exact gen hgen nMcq C hC⟩,
   ⟨seqGenRun_exact gen hgen nTf C hC, concGenRun_exact gen hgen nTf C hC⟩⟩

/-- C10 (witness): totals `(7, 5, 2)` over `3` chunks. -/
theorem c10_planner_equivalence_witness :
    (seqGenRun (fun _ n => n) 7 3 = 7 ∧ concGenRun (fun _ n => n) 7 3 = 7) ∧
    (seqGenRun (fun _ n => n) 5 3 = 5 ∧ concGenRun (fun _ n => n) 5 3 = 5) ∧
    (seqGenRun (fun _ n => n) 2 3 = 2 ∧ concGenRun (fun _ n => n) 2 3 = 2) :=
  c10_planner_equivalence 7 5 2 3 (fun _ n => n) (by decide) (fun _ _ => rfl)

end QuizCraft

